import Mathlib

/-!
Shallow embedding of the Assesment-TMS server core: the access-control
resolver, the task aggregate, the task-list aggregate, the share registry
and the login handler, translated from
`src/server-side/src/routes/tasks.js` (task routes and `getUserPermission`),
the task-list routes file, the shares routes file and
`src/server-side/src/routes/auth.js`.

The persistent store (Prisma over the four relations `users`, `task_lists`,
`tasks`, `task_list_shares`) is modelled as explicit lists; `findUnique`
becomes `List.find?`, `create` appends, `update` maps over the list and
`delete` filters, with the cascade of a task-list delete spelled out as in
the schema (`ON DELETE CASCADE`).  Identifiers are opaque, the code only
compares them, so they are modelled as `Nat`.  Express-validator prefilters
appear as `valid…` predicates checked before the handler body, mirroring
the order in the source; `.trim()` sanitizers are applied where the source
declares them.  HTTP status codes are recovered from the result branches by
the `status` functions, one number per `res.status(...)` call site.
-/

namespace TMS

/-- Share permission values accepted by the validators: `view` or `edit`. -/
inductive Permission
  | view
  | edit
deriving DecidableEq, Repr

/-- Task status values: `pending`, `in_progress`, `completed`. -/
inductive TaskStatus
  | pending
  | inProgress
  | completed
deriving DecidableEq, Repr

/-- Row of the `users` relation (credential kept as the stored hash). -/
structure User where
  id : Nat
  email : String
  password : String
deriving DecidableEq, Repr

/-- Row of the `task_lists` relation. -/
structure TaskList where
  id : Nat
  title : String
  ownerId : Nat
deriving DecidableEq, Repr

/-- Row of the `tasks` relation; `description` is nullable. -/
structure Task where
  id : Nat
  title : String
  description : Option String
  status : TaskStatus
  taskListId : Nat
deriving DecidableEq, Repr

/-- Row of the `task_list_shares` relation. -/
structure Share where
  id : Nat
  taskListId : Nat
  userId : Nat
  permission : Permission
deriving DecidableEq, Repr

/-- The four relations of the store. -/
structure DB where
  users : List User
  taskLists : List TaskList
  tasks : List Task
  shares : List Share
deriving DecidableEq, Repr

/-- JavaScript's `String.prototype.trim` (the express-validator `.trim()`
sanitizer): drop whitespace from both ends.  Defined structurally over the
character list so that it evaluates inside the kernel. -/
def jsTrim (s : String) : String :=
  ⟨((s.data.dropWhile Char.isWhitespace).reverse.dropWhile
      Char.isWhitespace).reverse⟩

/-- `prisma.taskList.findUnique({ where: { id } })`. -/
def findTaskList (db : DB) (id : Nat) : Option TaskList :=
  db.taskLists.find? (fun l => l.id == id)

/-- `prisma.task.findUnique({ where: { id } })`. -/
def findTask (db : DB) (id : Nat) : Option Task :=
  db.tasks.find? (fun t => t.id == id)

/-- Share lookup keyed by `(taskListId, userId)`, as in the `shares`
include filter of `getUserPermission` (taking the first row, `shares[0]`)
and in the `taskListId_userId` unique-key lookup of the grant handler. -/
def findShareFor (db : DB) (taskListId userId : Nat) : Option Share :=
  db.shares.find? (fun s => s.taskListId == taskListId && s.userId == userId)

/-- `prisma.taskListShare.findUnique({ where: { id: shareId } })`. -/
def findShareById (db : DB) (id : Nat) : Option Share :=
  db.shares.find? (fun s => s.id == id)

/-- `prisma.user.findUnique({ where: { email } })`. -/
def findUserByEmail (db : DB) (email : String) : Option User :=
  db.users.find? (fun u => u.email == email)

/-- The permission strings `getUserPermission` can report:
`'owner'`, `'view'` or `'edit'`. -/
inductive PermLevel
  | owner
  | view
  | edit
deriving DecidableEq, Repr

/-- A share's permission string viewed as a reported permission level. -/
def Permission.toLevel : Permission → PermLevel
  | .view => .view
  | .edit => .edit

/-- Return shape of `getUserPermission` in `tasks.js`:
`{ hasAccess, permission, taskList }`. -/
structure AccessCheck where
  hasAccess : Bool
  permission : Option PermLevel
  taskList : Option TaskList
deriving DecidableEq, Repr

/-- `getUserPermission(taskListId, userId)` from `tasks.js` lines 14-40:
fetch the list with the caller's shares; absent list means
`{hasAccess: false}`; the owner gets `'owner'`; a share holder gets the
share's permission; anyone else gets `{hasAccess: false}`. -/
def getUserPermission (db : DB) (taskListId userId : Nat) : AccessCheck :=
  match findTaskList db taskListId with
  | none => ⟨false, none, none⟩
  | some tl =>
    if tl.ownerId = userId then ⟨true, some PermLevel.owner, some tl⟩
    else
      match findShareFor db taskListId userId with
      | some s => ⟨true, some s.permission.toLevel, some tl⟩
      | none => ⟨false, none, none⟩

/-- The four access tiers of the spec: none / view / edit / owner. -/
inductive Tier
  | none
  | view
  | edit
  | owner
deriving DecidableEq, Repr

/-- The tier resolved for (list, user): the permission reported by
`getUserPermission`, with lack of access read as `Tier.none`. -/
def resolveTier (db : DB) (taskListId userId : Nat) : Tier :=
  match (getUserPermission db taskListId userId).permission with
  | some PermLevel.owner => Tier.owner
  | some PermLevel.view => Tier.view
  | some PermLevel.edit => Tier.edit
  | none => Tier.none

/-! ## Task routes (`tasks.js`) -/

/-- Result of `GET /api/tasks/:taskListId`. -/
inductive GetTasksResult
  | forbidden
  | ok (tasks : List Task) (permission : Option PermLevel)
deriving DecidableEq, Repr

/-- HTTP status of each `GET /api/tasks` branch. -/
def GetTasksResult.status : GetTasksResult → Nat
  | .forbidden => 403
  | .ok _ _ => 200

/-- `GET /api/tasks/:taskListId`: check access via `getUserPermission`,
403 without access, otherwise the list's tasks plus the caller's
permission. -/
def getTasks (db : DB) (taskListId userId : Nat) : GetTasksResult :=
  let ac := getUserPermission db taskListId userId
  if ac.hasAccess then
    .ok (db.tasks.filter (fun t => t.taskListId == taskListId)) ac.permission
  else .forbidden

/-- Body of `POST /api/tasks/:taskListId` after JSON parsing: `title`
required, `description` and `status` optional. -/
structure CreateTaskBody where
  title : String
  description : Option String
  status : Option TaskStatus
deriving DecidableEq, Repr

/-- Express-validator chain of the create-task route: trimmed title
non-empty and at most 200 chars; trimmed description at most 1000 chars;
a present status is already one of the three enum values by typing. -/
def validCreateTaskBody (b : CreateTaskBody) : Bool :=
  !(jsTrim b.title == "") && decide ((jsTrim b.title).length ≤ 200) &&
    (match b.description with
     | none => true
     | some d => decide ((jsTrim d).length ≤ 1000))

/-- Result of `POST /api/tasks/:taskListId`. -/
inductive CreateTaskResult
  | validationError
  | forbidden (msg : String)
  | created (task : Task)
deriving DecidableEq, Repr

/-- HTTP status of each create-task branch. -/
def CreateTaskResult.status : CreateTaskResult → Nat
  | .validationError => 400
  | .forbidden _ => 403
  | .created _ => 201

/-- `POST /api/tasks/:taskListId`: validate, check access (403 when the
resolver reports no access, 403 again for `'view'`), then create the task
with `description: description || null` and `status: status || 'pending'`.
`newId` stands for the id the store generates for the new row. -/
def createTask (db : DB) (taskListId userId : Nat) (b : CreateTaskBody)
    (newId : Nat) : CreateTaskResult × DB :=
  if validCreateTaskBody b then
    let ac := getUserPermission db taskListId userId
    if ac.hasAccess then
      if ac.permission = some PermLevel.view then
        (.forbidden "You need edit permission to add tasks", db)
      else
        let d := b.description.map jsTrim
        let task : Task :=
          ⟨newId, jsTrim b.title,
            match d with
            | some s => if s == "" then none else some s
            | none => none,
            b.status.getD TaskStatus.pending, taskListId⟩
        (.created task, { db with tasks := db.tasks ++ [task] })
    else (.forbidden "You do not have access to this task list", db)
  else (.validationError, db)

/-- Body of `PUT /api/tasks/:taskListId/:taskId`: every field optional;
a `none` field is absent from the JSON body. -/
structure UpdateTaskBody where
  title : Option String
  description : Option String
  status : Option TaskStatus
deriving DecidableEq, Repr

/-- Express-validator chain of the update-task route: a present title must
be non-empty and at most 200 chars after trim; a present description at
most 1000 chars after trim. -/
def validUpdateTaskBody (b : UpdateTaskBody) : Bool :=
  (match b.title with
   | none => true
   | some t => !(jsTrim t == "") && decide ((jsTrim t).length ≤ 200)) &&
  (match b.description with
   | none => true
   | some d => decide ((jsTrim d).length ≤ 1000))

/-- Result of `PUT /api/tasks/:taskListId/:taskId`. -/
inductive UpdateTaskResult
  | validationError
  | forbidden (msg : String)
  | notFound
  | invalidReference
  | ok (task : Task)
deriving DecidableEq, Repr

/-- HTTP status of each update-task branch (`invalidReference` is the 400
of `'Task does not belong to this task list'`). -/
def UpdateTaskResult.status : UpdateTaskResult → Nat
  | .validationError => 400
  | .forbidden _ => 403
  | .notFound => 404
  | .invalidReference => 400
  | .ok _ => 200

/-- The `updateData` object of the update-task route: only fields present
in the body are written, trimmed where the validator trims. -/
def applyTaskUpdate (t : Task) (b : UpdateTaskBody) : Task :=
  { t with
    title := match b.title with | some s => jsTrim s | none => t.title
    description :=
      match b.description with
      | some d => some (jsTrim d)
      | none => t.description
    status := b.status.getD t.status }

/-- `prisma.task.update({ where: { id }, data })` on the stored list. -/
def storeTaskUpdate (db : DB) (taskId : Nat) (t : Task) : DB :=
  { db with tasks := db.tasks.map (fun u => if u.id == taskId then t else u) }

/-- `PUT /api/tasks/:taskListId/:taskId`: validate, check access (view is
rejected), 404 when the task is absent, 400 when its parent list differs
from the path, else apply the partial update. -/
def updateTask (db : DB) (taskListId taskId userId : Nat)
    (b : UpdateTaskBody) : UpdateTaskResult × DB :=
  if validUpdateTaskBody b then
    let ac := getUserPermission db taskListId userId
    if ac.hasAccess then
      if ac.permission = some PermLevel.view then
        (.forbidden "You need edit permission to update tasks", db)
      else
        match findTask db taskId with
        | none => (.notFound, db)
        | some t =>
          if t.taskListId = taskListId then
            let t' := applyTaskUpdate t b
            (.ok t', storeTaskUpdate db taskId t')
          else (.invalidReference, db)
    else (.forbidden "You do not have access to this task list", db)
  else (.validationError, db)

/-- Result of `PATCH /api/tasks/:taskListId/:taskId/status`. -/
inductive UpdateStatusResult
  | forbidden (msg : String)
  | notFound
  | invalidReference
  | ok (task : Task)
deriving DecidableEq, Repr

/-- HTTP status of each status-update branch. -/
def UpdateStatusResult.status : UpdateStatusResult → Nat
  | .forbidden _ => 403
  | .notFound => 404
  | .invalidReference => 400
  | .ok _ => 200

/-- `PATCH /api/tasks/:taskListId/:taskId/status`: the body's single
`status` field is mandatory and already enum-checked by the validator, so
the post-validation body is a bare `TaskStatus`.  Same access and
parent-list checks as update, then only `status` is written. -/
def updateTaskStatus (db : DB) (taskListId taskId userId : Nat)
    (s : TaskStatus) : UpdateStatusResult × DB :=
  let ac := getUserPermission db taskListId userId
  if ac.hasAccess then
    if ac.permission = some PermLevel.view then
      (.forbidden "You need edit permission to update task status", db)
    else
      match findTask db taskId with
      | none => (.notFound, db)
      | some t =>
        if t.taskListId = taskListId then
          let t' := { t with status := s }
          (.ok t', storeTaskUpdate db taskId t')
        else (.invalidReference, db)
  else (.forbidden "You do not have access to this task list", db)

/-- Result of `DELETE /api/tasks/:taskListId/:taskId`. -/
inductive DeleteTaskResult
  | forbidden (msg : String)
  | notFound
  | invalidReference
  | ok
deriving DecidableEq, Repr

/-- HTTP status of each delete-task branch. -/
def DeleteTaskResult.status : DeleteTaskResult → Nat
  | .forbidden _ => 403
  | .notFound => 404
  | .invalidReference => 400
  | .ok => 200

/-- `DELETE /api/tasks/:taskListId/:taskId`: access checks as above, then
`prisma.task.delete({ where: { id: taskId } })`. -/
def deleteTask (db : DB) (taskListId taskId userId : Nat) :
    DeleteTaskResult × DB :=
  let ac := getUserPermission db taskListId userId
  if ac.hasAccess then
    if ac.permission = some PermLevel.view then
      (.forbidden "You need edit permission to delete tasks", db)
    else
      match findTask db taskId with
      | none => (.notFound, db)
      | some t =>
        if t.taskListId = taskListId then
          (.ok, { db with tasks := db.tasks.filter (fun u => !(u.id == taskId)) })
        else (.invalidReference, db)
  else (.forbidden "You do not have access to this task list", db)

/-! ## Task-list routes -/

/-- Express-validator chain shared by the create and update task-list
routes: trimmed title non-empty and at most 200 chars. -/
def validListTitle (title : String) : Bool :=
  !(jsTrim title == "") && decide ((jsTrim title).length ≤ 200)

/-- Result of `POST /api/tasklists`. -/
inductive CreateListResult
  | validationError
  | created (taskList : TaskList)
deriving DecidableEq, Repr

/-- HTTP status of each create-list branch. -/
def CreateListResult.status : CreateListResult → Nat
  | .validationError => 400
  | .created _ => 201

/-- `POST /api/tasklists`: validate the title, then create a list owned by
the caller; no pre-existing access check.  `newId` stands for the id the
store generates. -/
def createTaskList (db : DB) (userId : Nat) (title : String) (newId : Nat) :
    CreateListResult × DB :=
  if validListTitle title then
    let tl : TaskList := ⟨newId, jsTrim title, userId⟩
    (.created tl, { db with taskLists := db.taskLists ++ [tl] })
  else (.validationError, db)

/-- Result of `PUT /api/tasklists/:id`. -/
inductive UpdateListResult
  | validationError
  | notFound
  | forbidden
  | ok (taskList : TaskList)
deriving DecidableEq, Repr

/-- HTTP status of each update-list branch. -/
def UpdateListResult.status : UpdateListResult → Nat
  | .validationError => 400
  | .notFound => 404
  | .forbidden => 403
  | .ok _ => 200

/-- `PUT /api/tasklists/:id`: validate the title, 404 when the list is
absent, 403 (`'Only the owner can update the task list'`) when the caller
is not the owner, else write the new title. -/
def updateTaskList (db : DB) (id userId : Nat) (title : String) :
    UpdateListResult × DB :=
  if validListTitle title then
    match findTaskList db id with
    | none => (.notFound, db)
    | some tl =>
      if tl.ownerId = userId then
        let tl' := { tl with title := jsTrim title }
        let stored := db.taskLists.map (fun l => if l.id == id then tl' else l)
        (.ok tl', { db with taskLists := stored })
      else (.forbidden, db)
  else (.validationError, db)

/-- Result of `DELETE /api/tasklists/:id`. -/
inductive DeleteListResult
  | notFound
  | forbidden
  | ok
deriving DecidableEq, Repr

/-- HTTP status of each delete-list branch. -/
def DeleteListResult.status : DeleteListResult → Nat
  | .notFound => 404
  | .forbidden => 403
  | .ok => 200

/-- `DELETE /api/tasklists/:id`: 404 when the list is absent, 403
(`'Only the owner can delete the task list'`) for a non-owner, else delete
the list; the schema's `ON DELETE CASCADE` removes its tasks and shares. -/
def deleteTaskList (db : DB) (id userId : Nat) : DeleteListResult × DB :=
  match findTaskList db id with
  | none => (.notFound, db)
  | some tl =>
    if tl.ownerId = userId then
      (.ok,
        { db with
          taskLists := db.taskLists.filter (fun l => !(l.id == id))
          tasks := db.tasks.filter (fun t => !(t.taskListId == id))
          shares := db.shares.filter (fun s => !(s.taskListId == id)) })
    else (.forbidden, db)

/-! ## Share routes -/

/-- Result of `POST /api/shares/:taskListId`.  The spec's error taxonomy
names the branches: `selfShare` is InvalidOperation, `alreadyShared` is
Conflict (the uniqueness violation on `(taskListId, userId)`). -/
inductive GrantResult
  | listNotFound
  | forbidden
  | userNotFound
  | selfShare
  | alreadyShared
  | created (share : Share)
deriving DecidableEq, Repr

/-- HTTP status of each grant branch, per the `res.status(...)` calls. -/
def GrantResult.status : GrantResult → Nat
  | .listNotFound => 404
  | .forbidden => 403
  | .userNotFound => 404
  | .selfShare => 400
  | .alreadyShared => 400
  | .created _ => 201

/-- `POST /api/shares/:taskListId`: 404 for an absent list, 403 for a
non-owner caller, 404 for an unregistered target email, 400
(`'You cannot share a task list with yourself'`) when the target resolves
to the caller, 400 (`'Task list is already shared with this user'`) when a
share for `(taskListId, target)` exists, else create the share.  The body's
`email` is normalized and `permission` enum-checked by the validator, so
the post-validation body is a `String` and a `Permission`. -/
def grantShare (db : DB) (taskListId userId : Nat) (email : String)
    (perm : Permission) (newId : Nat) : GrantResult × DB :=
  match findTaskList db taskListId with
  | none => (.listNotFound, db)
  | some tl =>
    if tl.ownerId = userId then
      match findUserByEmail db email with
      | none => (.userNotFound, db)
      | some target =>
        if target.id = userId then (.selfShare, db)
        else
          match findShareFor db taskListId target.id with
          | some _ => (.alreadyShared, db)
          | none =>
            let s : Share := ⟨newId, taskListId, target.id, perm⟩
            (.created s, { db with shares := db.shares ++ [s] })
    else (.forbidden, db)

/-- Result of `PUT /api/shares/:taskListId/:shareId` and of
`DELETE /api/shares/:taskListId/:shareId` (the two routes branch the same
way; update carries the written share). -/
inductive ShareOpResult
  | listNotFound
  | forbidden
  | shareNotFound
  | invalidReference
  | ok (share : Option Share)
deriving DecidableEq, Repr

/-- HTTP status of each share update/revoke branch (`invalidReference` is
the 400 of `'Share does not belong to this task list'`). -/
def ShareOpResult.status : ShareOpResult → Nat
  | .listNotFound => 404
  | .forbidden => 403
  | .shareNotFound => 404
  | .invalidReference => 400
  | .ok _ => 200

/-- `PUT /api/shares/:taskListId/:shareId`: 404 for an absent list, 403
for a non-owner, 404 for an absent share, 400 when the share's list
reference differs from the path, else write the new permission. -/
def updateSharePermission (db : DB) (taskListId shareId userId : Nat)
    (perm : Permission) : ShareOpResult × DB :=
  match findTaskList db taskListId with
  | none => (.listNotFound, db)
  | some tl =>
    if tl.ownerId = userId then
      match findShareById db shareId with
      | none => (.shareNotFound, db)
      | some s =>
        if s.taskListId = taskListId then
          let s' := { s with permission := perm }
          let stored := db.shares.map (fun u => if u.id == shareId then s' else u)
          (.ok (some s'), { db with shares := stored })
        else (.invalidReference, db)
    else (.forbidden, db)

/-- `DELETE /api/shares/:taskListId/:shareId`: same checks as the
permission update, then delete the share. -/
def revokeShare (db : DB) (taskListId shareId userId : Nat) :
    ShareOpResult × DB :=
  match findTaskList db taskListId with
  | none => (.listNotFound, db)
  | some tl =>
    if tl.ownerId = userId then
      match findShareById db shareId with
      | none => (.shareNotFound, db)
      | some s =>
        if s.taskListId = taskListId then
          (.ok none,
            { db with shares := db.shares.filter (fun u => !(u.id == shareId)) })
        else (.invalidReference, db)
    else (.forbidden, db)

/-! ## Auth routes (`auth.js`) -/

/-- Result of `POST /api/auth/register`. -/
inductive RegisterResult
  | emailTaken
  | created (user : User)
deriving DecidableEq, Repr

/-- `POST /api/auth/register` after validation: 400 when a user with the
email exists, else create the user storing the password hash.  Hashing is
the external collaborator; the handler receives the hash it produced. -/
def register (db : DB) (email passwordHash : String) (newId : Nat) :
    RegisterResult × DB :=
  match findUserByEmail db email with
  | some _ => (.emailTaken, db)
  | none =>
    let u : User := ⟨newId, email, passwordHash⟩
    (.created u, { db with users := db.users ++ [u] })

/-- Response of `POST /api/auth/login` as the client sees it: status code,
error message if any, and the user id and token on success. -/
structure LoginResponse where
  status : Nat
  error : Option String
  userId : Option Nat
  token : Option Nat
deriving DecidableEq, Repr

/-- `POST /api/auth/login` after validation: 401 with
`'Invalid email or password'` when the email is not registered, the same
401 when `comparePassword` rejects, else 200 with the user and a token.
`check` is the bcrypt `comparePassword` collaborator (plaintext, stored
hash); the issued token is opaque and derived from the user id. -/
def login (db : DB) (check : String → String → Bool)
    (email password : String) : LoginResponse :=
  match findUserByEmail db email with
  | none => ⟨401, some "Invalid email or password", none, none⟩
  | some u =>
    if check password u.password then ⟨200, none, some u.id, some u.id⟩
    else ⟨401, some "Invalid email or password", none, none⟩

/-! ## Reachable states

Every state the server can reach from an empty store by the handlers
above.  Creation steps carry the store's guarantee that generated primary
keys are fresh. -/

/-- States reachable from the empty store through the route handlers.
The `hfresh` hypotheses are the store's primary-key generation: a created
row's id differs from every existing id of its relation. -/
inductive Reachable : DB → Prop
  | init : Reachable ⟨[], [], [], []⟩
  | registerStep (db : DB) (email passwordHash : String) (newId : Nat) :
      Reachable db → Reachable (register db email passwordHash newId).2
  | createListStep (db : DB) (userId : Nat) (title : String) (newId : Nat)
      (hfresh : ∀ l ∈ db.taskLists, l.id ≠ newId) :
      Reachable db → Reachable (createTaskList db userId title newId).2
  | updateListStep (db : DB) (id userId : Nat) (title : String) :
      Reachable db → Reachable (updateTaskList db id userId title).2
  | deleteListStep (db : DB) (id userId : Nat) :
      Reachable db → Reachable (deleteTaskList db id userId).2
  | createTaskStep (db : DB) (taskListId userId : Nat) (b : CreateTaskBody)
      (newId : Nat) :
      Reachable db → Reachable (createTask db taskListId userId b newId).2
  | updateTaskStep (db : DB) (taskListId taskId userId : Nat)
      (b : UpdateTaskBody) :
      Reachable db → Reachable (updateTask db taskListId taskId userId b).2
  | updateStatusStep (db : DB) (taskListId taskId userId : Nat)
      (s : TaskStatus) :
      Reachable db →
      Reachable (updateTaskStatus db taskListId taskId userId s).2
  | deleteTaskStep (db : DB) (taskListId taskId userId : Nat) :
      Reachable db → Reachable (deleteTask db taskListId taskId userId).2
  | grantStep (db : DB) (taskListId userId : Nat) (email : String)
      (perm : Permission) (newId : Nat) :
      Reachable db →
      Reachable (grantShare db taskListId userId email perm newId).2
  | updateShareStep (db : DB) (taskListId shareId userId : Nat)
      (perm : Permission) :
      Reachable db →
      Reachable (updateSharePermission db taskListId shareId userId perm).2
  | revokeStep (db : DB) (taskListId shareId userId : Nat) :
      Reachable db → Reachable (revokeShare db taskListId shareId userId).2

/-- No list's owner holds a share on their own list. -/
def NoSelfShare (db : DB) : Prop :=
  ∀ s ∈ db.shares, ∀ l ∈ db.taskLists, l.id = s.taskListId →
    l.ownerId ≠ s.userId

/-- Every share references an existing list (the `taskListId` foreign
key of `task_list_shares`). -/
def SharesFK (db : DB) : Prop :=
  ∀ s ∈ db.shares, ∃ l ∈ db.taskLists, l.id = s.taskListId

/-- Task-list primary keys are pairwise distinct. -/
def ListIdsNodup (db : DB) : Prop :=
  db.taskLists.Pairwise (fun a b => a.id ≠ b.id)

/-- At most one share per `(taskListId, userId)` pair: the
`task_list_shares_taskListId_userId_key` unique index of the schema. -/
def SharesUnique (db : DB) : Prop :=
  db.shares.Pairwise (fun a b => a.taskListId ≠ b.taskListId ∨ a.userId ≠ b.userId)

/-- The structural store invariant used for reachability arguments. -/
def Inv (db : DB) : Prop :=
  ListIdsNodup db ∧ SharesFK db ∧ NoSelfShare db

/-- The tier a share's permission confers. -/
def Permission.tier : Permission → Tier
  | .view => Tier.view
  | .edit => Tier.edit

/-! ## Helper lemmas -/

lemma findTaskList_id {db : DB} {id : Nat} {tl : TaskList}
    (h : findTaskList db id = some tl) : tl.id = id := by
  have := List.find?_some h
  simpa using this

lemma findTaskList_mem {db : DB} {id : Nat} {tl : TaskList}
    (h : findTaskList db id = some tl) : tl ∈ db.taskLists :=
  List.mem_of_find?_eq_some h

lemma findShareFor_keys {db : DB} {L U : Nat} {s : Share}
    (h : findShareFor db L U = some s) : s.taskListId = L ∧ s.userId = U := by
  have := List.find?_some h
  simpa using this

lemma findShareFor_mem {db : DB} {L U : Nat} {s : Share}
    (h : findShareFor db L U = some s) : s ∈ db.shares :=
  List.mem_of_find?_eq_some h

lemma findShareById_mem {db : DB} {id : Nat} {s : Share}
    (h : findShareById db id = some s) : s ∈ db.shares :=
  List.mem_of_find?_eq_some h

lemma findTask_mem {db : DB} {id : Nat} {t : Task}
    (h : findTask db id = some t) : t ∈ db.tasks :=
  List.mem_of_find?_eq_some h

lemma getUserPermission_hasAccess (db : DB) (L U : Nat) :
    (getUserPermission db L U).hasAccess =
      (getUserPermission db L U).permission.isSome := by
  unfold getUserPermission
  cases findTaskList db L with
  | none => rfl
  | some tl =>
    by_cases h : tl.ownerId = U
    · simp [h]
    · simp only [if_neg h]
      cases findShareFor db L U with
      | none => rfl
      | some s => rfl

lemma permission_of_resolveTier_view {db : DB} {L U : Nat}
    (h : resolveTier db L U = Tier.view) :
    (getUserPermission db L U).permission = some PermLevel.view := by
  unfold resolveTier at h
  rcases hp : (getUserPermission db L U).permission with _ | pl
  · rw [hp] at h; simp at h
  · cases pl <;> rw [hp] at h <;> simp_all

lemma access_of_resolveTier_editable {db : DB} {L U : Nat}
    (h : resolveTier db L U = Tier.owner ∨ resolveTier db L U = Tier.edit) :
    (getUserPermission db L U).hasAccess = true ∧
      (getUserPermission db L U).permission ≠ some PermLevel.view := by
  have hA := getUserPermission_hasAccess db L U
  unfold resolveTier at h
  rcases hp : (getUserPermission db L U).permission with _ | pl
  · rw [hp] at h; simp at h
  · cases pl with
    | view => rw [hp] at h; simp at h
    | owner => rw [hp] at hA; exact ⟨by simpa using hA, by decide⟩
    | edit => rw [hp] at hA; exact ⟨by simpa using hA, by decide⟩

lemma hasAccess_of_permission_view {db : DB} {L U : Nat}
    (h : (getUserPermission db L U).permission = some PermLevel.view) :
    (getUserPermission db L U).hasAccess = true := by
  rw [getUserPermission_hasAccess, h]; rfl

lemma getUserPermission_of_no_list {db : DB} {L : Nat} (U : Nat)
    (h : findTaskList db L = none) :
    getUserPermission db L U = ⟨false, none, none⟩ := by
  unfold getUserPermission
  rw [h]

lemma getUserPermission_of_owner {db : DB} {L U : Nat} {tl : TaskList}
    (h : findTaskList db L = some tl) (ho : tl.ownerId = U) :
    getUserPermission db L U = ⟨true, some PermLevel.owner, some tl⟩ := by
  unfold getUserPermission
  rw [h]
  simp [ho]

lemma getUserPermission_of_share {db : DB} {L U : Nat} {tl : TaskList}
    {s : Share} (h : findTaskList db L = some tl) (ho : tl.ownerId ≠ U)
    (hs : findShareFor db L U = some s) :
    getUserPermission db L U = ⟨true, some s.permission.toLevel, some tl⟩ := by
  unfold getUserPermission
  rw [h]
  simp [if_neg ho, hs]

lemma getUserPermission_of_none {db : DB} {L U : Nat} {tl : TaskList}
    (h : findTaskList db L = some tl) (ho : tl.ownerId ≠ U)
    (hs : findShareFor db L U = none) :
    getUserPermission db L U = ⟨false, none, none⟩ := by
  unfold getUserPermission
  rw [h]
  simp [if_neg ho, hs]

lemma find?_share_key {l : List Share} {L U : Nat} {s : Share}
    (huniq : l.Pairwise
      (fun a b => a.taskListId ≠ b.taskListId ∨ a.userId ≠ b.userId))
    (hmem : s ∈ l) (hL : s.taskListId = L) (hU : s.userId = U) :
    l.find? (fun x => x.taskListId == L && x.userId == U) = some s := by
  induction l with
  | nil => cases hmem
  | cons a t ih =>
    rcases List.pairwise_cons.mp huniq with ⟨ha, ht⟩
    rcases List.mem_cons.mp hmem with rfl | hmem'
    · exact List.find?_cons_of_pos t (by simp [hL, hU])
    · by_cases hpa : (a.taskListId == L && a.userId == U) = true
      · exfalso
        simp only [Bool.and_eq_true, beq_iff_eq] at hpa
        rcases ha s hmem' with h1 | h2
        · exact h1 (by rw [hpa.1, hL])
        · exact h2 (by rw [hpa.2, hU])
      · rw [List.find?_cons_of_neg t hpa]
        exact ih ht hmem'

lemma findShareFor_eq_of_mem {db : DB} {L U : Nat} {s : Share}
    (huniq : SharesUnique db) (hmem : s ∈ db.shares)
    (hL : s.taskListId = L) (hU : s.userId = U) :
    findShareFor db L U = some s :=
  find?_share_key huniq hmem hL hU

/-! ## Claim theorems -/

/-- C1.  A grant for a pair `(listId, targetee)` that already carries a
share fails on the duplicate-share check — the branch the spec's taxonomy
calls Conflict, serialized by the route as 400
`'Task list is already shared with this user'` — and the store, in
particular the existing share's permission, is left exactly as it was:
the grant never overwrites. -/
theorem grant_existing_share_conflict (db : DB) (L U newId : Nat)
    (email : String) (perm : Permission) (tl : TaskList) (target : User)
    (ex : Share)
    (hfl : findTaskList db L = some tl) (ho : tl.ownerId = U)
    (htgt : findUserByEmail db email = some target) (hne : target.id ≠ U)
    (hex : findShareFor db L target.id = some ex) :
    grantShare db L U email perm newId = (GrantResult.alreadyShared, db) ∧
      ex ∈ (grantShare db L U email perm newId).2.shares := by
  have hres : grantShare db L U email perm newId = (.alreadyShared, db) := by
    unfold grantShare
    rw [hfl]
    simp [ho, htgt, if_neg hne, hex]
  exact ⟨hres, by rw [hres]; exact findShareFor_mem hex⟩

/-- Witness for C1: a concrete store where the grant of an already shared
list reports the conflict and changes nothing. -/
theorem grant_existing_share_conflict_witness :
    let u1 : User := ⟨1, "a@x.com", "h1"⟩
    let u2 : User := ⟨2, "b@x.com", "h2"⟩
    let tl : TaskList := ⟨10, "Groceries", 1⟩
    let ex : Share := ⟨20, 10, 2, Permission.view⟩
    let db : DB := ⟨[u1, u2], [tl], [], [ex]⟩
    grantShare db 10 1 "b@x.com" Permission.edit 21 =
        (GrantResult.alreadyShared, db) ∧
      ex ∈ (grantShare db 10 1 "b@x.com" Permission.edit 21).2.shares :=
  grant_existing_share_conflict
    ⟨[⟨1, "a@x.com", "h1"⟩, ⟨2, "b@x.com", "h2"⟩], [⟨10, "Groceries", 1⟩],
      [], [⟨20, 10, 2, Permission.view⟩]⟩
    10 1 21 "b@x.com" Permission.edit ⟨10, "Groceries", 1⟩
    ⟨2, "b@x.com", "h2"⟩ ⟨20, 10, 2, Permission.view⟩
    (by decide) (by decide) (by decide) (by decide) (by decide)

/-- C5.  On an existing list, the title update and the delete of the list
reject every caller other than the owner with Forbidden (403) and leave
the store untouched; in particular a caller holding an edit share is
rejected, since the routes compare `ownerId` directly. -/
theorem list_mutation_owner_only (db : DB) (id U : Nat) (title : String)
    (tl : TaskList) (hfl : findTaskList db id = some tl)
    (hno : tl.ownerId ≠ U) (hv : validListTitle title = true) :
    updateTaskList db id U title = (UpdateListResult.forbidden, db) ∧
      UpdateListResult.forbidden.status = 403 ∧
      deleteTaskList db id U = (DeleteListResult.forbidden, db) ∧
      DeleteListResult.forbidden.status = 403 := by
  refine ⟨?_, rfl, ?_, rfl⟩
  · unfold updateTaskList
    rw [if_pos hv, hfl]
    simp [if_neg hno]
  · unfold deleteTaskList
    rw [hfl]
    simp [if_neg hno]

/-- Witness for C5: a concrete store where a user holding an edit share is
refused both list mutations. -/
theorem list_mutation_owner_only_witness :
    let db : DB := ⟨[⟨1, "a@x.com", "h1"⟩, ⟨2, "b@x.com", "h2"⟩],
      [⟨10, "Groceries", 1⟩], [], [⟨20, 10, 2, Permission.edit⟩]⟩
    updateTaskList db 10 2 "New title" = (UpdateListResult.forbidden, db) ∧
      UpdateListResult.forbidden.status = 403 ∧
      deleteTaskList db 10 2 = (DeleteListResult.forbidden, db) ∧
      DeleteListResult.forbidden.status = 403 :=
  list_mutation_owner_only
    ⟨[⟨1, "a@x.com", "h1"⟩, ⟨2, "b@x.com", "h2"⟩], [⟨10, "Groceries", 1⟩],
      [], [⟨20, 10, 2, Permission.edit⟩]⟩
    10 2 "New title" ⟨10, "Groceries", 1⟩ (by decide) (by decide) (by decide)

/-- C9.  A login with an unregistered email and a login with a registered
email but a rejected password produce the same response: 401,
`'Invalid email or password'`, no user, no token — the two failures are
indistinguishable to the client. -/
theorem login_failures_indistinguishable (db : DB)
    (check : String → String → Bool) (e1 p1 e2 p2 : String) (u : User)
    (h1 : findUserByEmail db e1 = none)
    (h2 : findUserByEmail db e2 = some u)
    (hpw : check p2 u.password = false) :
    login db check e1 p1 = login db check e2 p2 ∧
      login db check e1 p1 =
        ⟨401, some "Invalid email or password", none, none⟩ := by
  have ha : login db check e1 p1 =
      ⟨401, some "Invalid email or password", none, none⟩ := by
    unfold login
    rw [h1]
  have hb : login db check e2 p2 =
      ⟨401, some "Invalid email or password", none, none⟩ := by
    unfold login
    rw [h2]
    simp [hpw]
  exact ⟨ha.trans hb.symm, ha⟩

/-- Witness for C9: concrete store, one registered user, a password check
that rejects; both failed logins coincide. -/
theorem login_failures_indistinguishable_witness :
    let db : DB := ⟨[⟨1, "a@x.com", "secret"⟩], [], [], []⟩
    let check : String → String → Bool := fun p h => p == h
    login db check "ghost@x.com" "pw" = login db check "a@x.com" "wrong" ∧
      login db check "ghost@x.com" "pw" =
        ⟨401, some "Invalid email or password", none, none⟩ :=
  login_failures_indistinguishable ⟨[⟨1, "a@x.com", "secret"⟩], [], [], []⟩
    (fun p h => p == h) "ghost@x.com" "pw" "a@x.com" "wrong"
    ⟨1, "a@x.com", "secret"⟩ (by decide) (by decide) (by decide)

/-- C2 counterexample: with a store holding a registered user and no task
list at all, the task read and delete operations on a missing list id
answer 403 (the routes map the resolver's `hasAccess: false` — which
conflates "list absent" with "no permission" — to 403), not the 404 the
claim asserts. -/
theorem missing_list_counterexample :
    let db : DB := ⟨[⟨1, "a@x.com", "h1"⟩], [], [], []⟩
    findTaskList db 7 = none ∧
      (getTasks db 7 1).status = 403 ∧
      ¬((getTasks db 7 1).status = 404) ∧
      (deleteTask db 7 3 1).1.status = 403 ∧
      ¬((deleteTask db 7 3 1).1.status = 404) := by decide

/-- C2 (amended).  For every task-aggregate operation invoked with a
`listId` that references no existing list, the operation signals Forbidden
(403) — not NotFound — and mutates nothing: `getUserPermission` returns
`hasAccess: false` for an absent list and every task route maps that to
403 `'You do not have access to this task list'`. -/
theorem missing_list_task_ops_forbidden (db : DB) (L U taskId newId : Nat)
    (bc : CreateTaskBody) (bu : UpdateTaskBody) (s : TaskStatus)
    (hfl : findTaskList db L = none)
    (hbc : validCreateTaskBody bc = true)
    (hbu : validUpdateTaskBody bu = true) :
    (getTasks db L U = GetTasksResult.forbidden ∧
        (getTasks db L U).status = 403) ∧
      (createTask db L U bc newId =
          (CreateTaskResult.forbidden "You do not have access to this task list",
            db) ∧
        (createTask db L U bc newId).1.status = 403) ∧
      (updateTask db L taskId U bu =
          (UpdateTaskResult.forbidden "You do not have access to this task list",
            db) ∧
        (updateTask db L taskId U bu).1.status = 403) ∧
      (updateTaskStatus db L taskId U s =
          (UpdateStatusResult.forbidden
            "You do not have access to this task list", db) ∧
        (updateTaskStatus db L taskId U s).1.status = 403) ∧
      (deleteTask db L taskId U =
          (DeleteTaskResult.forbidden "You do not have access to this task list",
            db) ∧
        (deleteTask db L taskId U).1.status = 403) := by
  have hac : getUserPermission db L U = ⟨false, none, none⟩ :=
    getUserPermission_of_no_list U hfl
  have h1 : getTasks db L U = GetTasksResult.forbidden := by
    simp [getTasks, hac]
  have h2 : createTask db L U bc newId =
      (CreateTaskResult.forbidden "You do not have access to this task list",
        db) := by
    simp [createTask, hac, hbc]
  have h3 : updateTask db L taskId U bu =
      (UpdateTaskResult.forbidden "You do not have access to this task list",
        db) := by
    simp [updateTask, hac, hbu]
  have h4 : updateTaskStatus db L taskId U s =
      (UpdateStatusResult.forbidden "You do not have access to this task list",
        db) := by
    simp [updateTaskStatus, hac]
  have h5 : deleteTask db L taskId U =
      (DeleteTaskResult.forbidden "You do not have access to this task list",
        db) := by
    simp [deleteTask, hac]
  exact ⟨⟨h1, by rw [h1]; rfl⟩, ⟨h2, by rw [h2]; rfl⟩, ⟨h3, by rw [h3]; rfl⟩,
    ⟨h4, by rw [h4]; rfl⟩, ⟨h5, by rw [h5]; rfl⟩⟩

/-- Witness for the amended C2: concrete store, missing list id, all five
task operations answer 403 and leave the store unchanged. -/
theorem missing_list_task_ops_forbidden_witness :
    let db : DB := ⟨[⟨1, "a@x.com", "h1"⟩], [], [], []⟩
    (getTasks db 7 1 = GetTasksResult.forbidden ∧
        (getTasks db 7 1).status = 403) ∧
      (createTask db 7 1 ⟨"T", none, none⟩ 5 =
          (CreateTaskResult.forbidden "You do not have access to this task list",
            db) ∧
        (createTask db 7 1 ⟨"T", none, none⟩ 5).1.status = 403) ∧
      (updateTask db 7 3 1 ⟨none, none, none⟩ =
          (UpdateTaskResult.forbidden "You do not have access to this task list",
            db) ∧
        (updateTask db 7 3 1 ⟨none, none, none⟩).1.status = 403) ∧
      (updateTaskStatus db 7 3 1 TaskStatus.completed =
          (UpdateStatusResult.forbidden
            "You do not have access to this task list", db) ∧
        (updateTaskStatus db 7 3 1 TaskStatus.completed).1.status = 403) ∧
      (deleteTask db 7 3 1 =
          (DeleteTaskResult.forbidden "You do not have access to this task list",
            db) ∧
        (deleteTask db 7 3 1).1.status = 403) :=
  missing_list_task_ops_forbidden ⟨[⟨1, "a@x.com", "h1"⟩], [], [], []⟩ 7 1 3 5
    ⟨"T", none, none⟩ ⟨none, none, none⟩ TaskStatus.completed
    (by decide) (by decide) (by decide)

/-- C3.  For an existing list the resolved tier — one of the four values
of the closed `Tier` enumeration — is `owner` exactly when the caller owns
the list; for a non-owner it is the permission of the unique share for
`(list, user)` when one exists (uniqueness by the schema's
`(taskListId, userId)` index), and `none` when no share exists. -/
theorem resolve_tier_characterization (db : DB) (L U : Nat) (tl : TaskList)
    (hfl : findTaskList db L = some tl) (huniq : SharesUnique db) :
    (resolveTier db L U = Tier.owner ↔ tl.ownerId = U) ∧
      (tl.ownerId ≠ U → ∀ s ∈ db.shares, s.taskListId = L → s.userId = U →
        resolveTier db L U = s.permission.tier) ∧
      (tl.ownerId ≠ U → findShareFor db L U = none →
        resolveTier db L U = Tier.none) := by
  refine ⟨⟨?_, ?_⟩, ?_, ?_⟩
  · intro h
    by_contra ho
    rcases hs : findShareFor db L U with _ | s
    · rw [show resolveTier db L U = Tier.none by
        simp [resolveTier, getUserPermission_of_none hfl ho hs]] at h
      cases h
    · rw [show resolveTier db L U = s.permission.tier by
        cases hp : s.permission <;>
          simp [resolveTier, getUserPermission_of_share hfl ho hs, hp,
            Permission.toLevel, Permission.tier]] at h
      cases hp : s.permission <;> rw [hp] at h <;> cases h
  · intro ho
    simp [resolveTier, getUserPermission_of_owner hfl ho]
  · intro ho s hmem hL hU
    have hs : findShareFor db L U = some s :=
      findShareFor_eq_of_mem huniq hmem hL hU
    cases hp : s.permission <;>
      simp [resolveTier, getUserPermission_of_share hfl ho hs, hp,
        Permission.toLevel, Permission.tier]
  · intro ho hs
    simp [resolveTier, getUserPermission_of_none hfl ho hs]

/-- Witness for C3: a store with an owner, a view-share and a bystander;
the characterization instantiated at the share holder. -/
theorem resolve_tier_characterization_witness :
    let db : DB := ⟨[⟨1, "a@x.com", "h1"⟩, ⟨2, "b@x.com", "h2"⟩],
      [⟨10, "Groceries", 1⟩], [], [⟨20, 10, 2, Permission.view⟩]⟩
    (resolveTier db 10 2 = Tier.owner ↔ (1 : Nat) = 2) ∧
      ((1 : Nat) ≠ 2 → ∀ s ∈ db.shares, s.taskListId = 10 → s.userId = 2 →
        resolveTier db 10 2 = s.permission.tier) ∧
      ((1 : Nat) ≠ 2 → findShareFor db 10 2 = none →
        resolveTier db 10 2 = Tier.none) :=
  resolve_tier_characterization
    ⟨[⟨1, "a@x.com", "h1"⟩, ⟨2, "b@x.com", "h2"⟩], [⟨10, "Groceries", 1⟩],
      [], [⟨20, 10, 2, Permission.view⟩]⟩
    10 2 ⟨10, "Groceries", 1⟩ (by decide) (by simp [SharesUnique])

/-- C4.  A caller whose resolved tier is `view` is refused every task
mutation with Forbidden — create, update, status update and delete each
answer 403 and leave the store untouched — while the task read returns
the list's tasks together with the `view` permission. -/
theorem view_tier_read_only (db : DB) (L U taskId newId : Nat)
    (bc : CreateTaskBody) (bu : UpdateTaskBody) (s : TaskStatus)
    (hv : resolveTier db L U = Tier.view)
    (hbc : validCreateTaskBody bc = true)
    (hbu : validUpdateTaskBody bu = true) :
    createTask db L U bc newId =
        (CreateTaskResult.forbidden "You need edit permission to add tasks",
          db) ∧
      updateTask db L taskId U bu =
        (UpdateTaskResult.forbidden "You need edit permission to update tasks",
          db) ∧
      updateTaskStatus db L taskId U s =
        (UpdateStatusResult.forbidden
          "You need edit permission to update task status", db) ∧
      deleteTask db L taskId U =
        (DeleteTaskResult.forbidden "You need edit permission to delete tasks",
          db) ∧
      getTasks db L U =
        GetTasksResult.ok (db.tasks.filter (fun t => t.taskListId == L))
          (some PermLevel.view) := by
  have hP := permission_of_resolveTier_view hv
  have hA := hasAccess_of_permission_view hP
  refine ⟨?_, ?_, ?_, ?_, ?_⟩
  · simp [createTask, hP, hA, hbc]
  · simp [updateTask, hP, hA, hbu]
  · simp [updateTaskStatus, hP, hA]
  · simp [deleteTask, hP, hA]
  · simp [getTasks, hP, hA]

/-- Witness for C4: concrete store where the view-share holder is blocked
from all four mutations and can read. -/
theorem view_tier_read_only_witness :
    let db : DB := ⟨[⟨1, "a@x.com", "h1"⟩, ⟨2, "b@x.com", "h2"⟩],
      [⟨10, "Groceries", 1⟩], [⟨30, "Milk", none, TaskStatus.pending, 10⟩],
      [⟨20, 10, 2, Permission.view⟩]⟩
    createTask db 10 2 ⟨"T", none, none⟩ 31 =
        (CreateTaskResult.forbidden "You need edit permission to add tasks",
          db) ∧
      updateTask db 10 30 2 ⟨none, none, some TaskStatus.completed⟩ =
        (UpdateTaskResult.forbidden "You need edit permission to update tasks",
          db) ∧
      updateTaskStatus db 10 30 2 TaskStatus.completed =
        (UpdateStatusResult.forbidden
          "You need edit permission to update task status", db) ∧
      deleteTask db 10 30 2 =
        (DeleteTaskResult.forbidden "You need edit permission to delete tasks",
          db) ∧
      getTasks db 10 2 =
        GetTasksResult.ok (db.tasks.filter (fun t => t.taskListId == 10))
          (some PermLevel.view) :=
  view_tier_read_only
    ⟨[⟨1, "a@x.com", "h1"⟩, ⟨2, "b@x.com", "h2"⟩], [⟨10, "Groceries", 1⟩],
      [⟨30, "Milk", none, TaskStatus.pending, 10⟩],
      [⟨20, 10, 2, Permission.view⟩]⟩
    10 2 30 31 ⟨"T", none, none⟩ ⟨none, none, some TaskStatus.completed⟩
    TaskStatus.completed (by decide) (by decide) (by decide)

/-- C6.  A task update or delete whose task exists under a different
parent list, and a share permission-update or revoke whose share belongs
to a different list, are all rejected on the parent-match check — the
branch the spec calls InvalidReference, a 400 — with the store untouched.
The task operations are taken after their access check (owner or edit
tier on the path's list), the share operations after their owner check,
as in the source order. -/
theorem cross_reference_rejected (db : DB) (L U taskId : Nat)
    (bu : UpdateTaskBody) (t : Task) (L2 U2 shareId : Nat)
    (perm : Permission) (tl2 : TaskList) (sh : Share)
    (hbu : validUpdateTaskBody bu = true)
    (hacc : resolveTier db L U = Tier.owner ∨ resolveTier db L U = Tier.edit)
    (ht : findTask db taskId = some t) (hmm : t.taskListId ≠ L)
    (hfl2 : findTaskList db L2 = some tl2) (ho2 : tl2.ownerId = U2)
    (hsh : findShareById db shareId = some sh) (hmm2 : sh.taskListId ≠ L2) :
    (updateTask db L taskId U bu = (UpdateTaskResult.invalidReference, db) ∧
        UpdateTaskResult.invalidReference.status = 400) ∧
      (deleteTask db L taskId U = (DeleteTaskResult.invalidReference, db) ∧
        DeleteTaskResult.invalidReference.status = 400) ∧
      (updateSharePermission db L2 shareId U2 perm =
          (ShareOpResult.invalidReference, db) ∧
        ShareOpResult.invalidReference.status = 400) ∧
      (revokeShare db L2 shareId U2 = (ShareOpResult.invalidReference, db) ∧
        ShareOpResult.invalidReference.status = 400) := by
  obtain ⟨hA, hP⟩ := access_of_resolveTier_editable hacc
  refine ⟨⟨?_, rfl⟩, ⟨?_, rfl⟩, ⟨?_, rfl⟩, ⟨?_, rfl⟩⟩
  · simp [updateTask, hbu, hA, hP, ht, hmm]
  · simp [deleteTask, hA, hP, ht, hmm]
  · unfold updateSharePermission
    rw [hfl2]
    simp [ho2, hsh, hmm2]
  · unfold revokeShare
    rw [hfl2]
    simp [ho2, hsh, hmm2]

/-- Witness for C6: user 1 owns lists 10 and 11; task 30 lives in list
10 and share 20 refers to list 10; addressing either through list 11 is
rejected with the 400 and nothing changes. -/
theorem cross_reference_rejected_witness :
    let db : DB := ⟨[⟨1, "a@x.com", "h1"⟩, ⟨2, "b@x.com", "h2"⟩],
      [⟨10, "Groceries", 1⟩, ⟨11, "Work", 1⟩],
      [⟨30, "Milk", none, TaskStatus.pending, 10⟩],
      [⟨20, 10, 2, Permission.view⟩]⟩
    (updateTask db 11 30 1 ⟨none, none, some TaskStatus.completed⟩ =
          (UpdateTaskResult.invalidReference, db) ∧
        UpdateTaskResult.invalidReference.status = 400) ∧
      (deleteTask db 11 30 1 = (DeleteTaskResult.invalidReference, db) ∧
        DeleteTaskResult.invalidReference.status = 400) ∧
      (updateSharePermission db 11 20 1 Permission.edit =
          (ShareOpResult.invalidReference, db) ∧
        ShareOpResult.invalidReference.status = 400) ∧
      (revokeShare db 11 20 1 = (ShareOpResult.invalidReference, db) ∧
        ShareOpResult.invalidReference.status = 400) :=
  cross_reference_rejected
    ⟨[⟨1, "a@x.com", "h1"⟩, ⟨2, "b@x.com", "h2"⟩],
      [⟨10, "Groceries", 1⟩, ⟨11, "Work", 1⟩],
      [⟨30, "Milk", none, TaskStatus.pending, 10⟩],
      [⟨20, 10, 2, Permission.view⟩]⟩
    11 1 30 ⟨none, none, some TaskStatus.completed⟩
    ⟨30, "Milk", none, TaskStatus.pending, 10⟩ 11 1 20 Permission.edit
    ⟨11, "Work", 1⟩ ⟨20, 10, 2, Permission.view⟩
    (by decide) (by decide) (by decide) (by decide) (by decide) (by decide)
    (by decide) (by decide)

/-- C7.  When a task update succeeds, each of title, description and
status that is absent from the request body keeps its stored value — the
`updateData` object receives only the present fields; in particular a body
carrying only `status` leaves title and description untouched. -/
theorem partial_update_retains_omitted (db : DB) (L U taskId : Nat)
    (bu : UpdateTaskBody) (t t' : Task) (db' : DB)
    (ht : findTask db taskId = some t)
    (hres : updateTask db L taskId U bu = (UpdateTaskResult.ok t', db')) :
    (bu.title = none → t'.title = t.title) ∧
      (bu.description = none → t'.description = t.description) ∧
      (bu.status = none → t'.status = t.status) := by
  have ht' : t' = applyTaskUpdate t bu := by
    simp only [updateTask, ht] at hres
    split at hres
    · split at hres
      · split at hres
        · exact absurd hres (by simp)
        · split at hres
          · rw [Prod.mk.injEq] at hres
            exact (UpdateTaskResult.ok.inj hres.1).symm
          · exact absurd hres (by simp)
      · exact absurd hres (by simp)
    · exact absurd hres (by simp)
  refine ⟨?_, ?_, ?_⟩ <;> intro hnone <;>
    simp [ht', applyTaskUpdate, hnone]

/-- Witness for C7: a status-only update of task 30 by its owner keeps
title and description. -/
theorem partial_update_retains_omitted_witness :
    ((some TaskStatus.completed : Option TaskStatus) = none →
        ("Milk" : String) = "Milk") ∧
      ((none : Option String) = none →
        (some "2L" : Option String) = some "2L") ∧
      ((none : Option String) = none →
        (some "2L" : Option String) = some "2L") := by
  have h := partial_update_retains_omitted
    ⟨[⟨1, "a@x.com", "h1"⟩], [⟨10, "Groceries", 1⟩],
      [⟨30, "Milk", some "2L", TaskStatus.pending, 10⟩], []⟩
    10 1 30 ⟨none, none, some TaskStatus.completed⟩
    ⟨30, "Milk", some "2L", TaskStatus.pending, 10⟩
    ⟨30, "Milk", some "2L", TaskStatus.completed, 10⟩
    ⟨[⟨1, "a@x.com", "h1"⟩], [⟨10, "Groceries", 1⟩],
      [⟨30, "Milk", some "2L", TaskStatus.completed, 10⟩], []⟩
    (by decide) (by decide)
  exact ⟨fun hn => rfl, fun hn => h.2.1 hn, fun hn => h.2.1 hn⟩

lemma applyTaskUpdate_empty (t : Task) :
    applyTaskUpdate t ⟨none, none, none⟩ = t := rfl

lemma map_replace_self {l : List Task} {tid : Nat} {t : Task}
    (hfind : l.find? (fun u => u.id == tid) = some t)
    (hnd : l.Pairwise (fun a b => a.id ≠ b.id)) :
    l.map (fun u => if u.id == tid then t else u) = l := by
  induction l with
  | nil => rfl
  | cons a tl ih =>
    rcases List.pairwise_cons.mp hnd with ⟨ha, htl⟩
    by_cases h : (a.id == tid) = true
    · have hta : t = a := by
        rw [List.find?_cons_of_pos tl h] at hfind
        exact (Option.some.inj hfind).symm
      subst hta
      have h1 : t.id = tid := by simpa using h
      simp only [List.map_cons, if_pos h]
      have hrest : ∀ u ∈ tl, (if (u.id == tid) = true then t else u) = u := by
        intro u hu
        have h2 : ¬((u.id == tid) = true) := by
          simp only [beq_iff_eq]
          intro hc
          exact ha u hu (h1.trans hc.symm)
        rw [if_neg h2]
      rw [List.map_congr_left hrest, List.map_id']
    · rw [List.find?_cons_of_neg tl h] at hfind
      simp only [List.map_cons, if_neg h]
      rw [ih hfind htl]

/-- C10.  An update whose body carries none of the three fields, issued by
an owner- or edit-tier caller against a task whose parent matches the
path, succeeds, returns the task as stored, and changes nothing: the
`updateData` object is empty.  (Task primary keys are assumed pairwise
distinct, as the store's `id` column guarantees.) -/
theorem empty_update_identity (db : DB) (L U taskId : Nat) (t : Task)
    (hacc : resolveTier db L U = Tier.owner ∨ resolveTier db L U = Tier.edit)
    (ht : findTask db taskId = some t) (hpl : t.taskListId = L)
    (hnd : db.tasks.Pairwise (fun a b => a.id ≠ b.id)) :
    updateTask db L taskId U ⟨none, none, none⟩ =
      (UpdateTaskResult.ok t, db) := by
  obtain ⟨hA, hP⟩ := access_of_resolveTier_editable hacc
  have hstore : storeTaskUpdate db taskId t = db := by
    unfold storeTaskUpdate
    rw [map_replace_self ht hnd]
  have hval : validUpdateTaskBody ⟨none, none, none⟩ = true := rfl
  simp [updateTask, hval, hA, hP, ht, hpl, applyTaskUpdate_empty, hstore]

/-- Witness for C10: the empty-bodied update of task 30 by the owner
returns the stored task and the unchanged store. -/
theorem empty_update_identity_witness :
    let db : DB := ⟨[⟨1, "a@x.com", "h1"⟩], [⟨10, "Groceries", 1⟩],
      [⟨30, "Milk", some "2L", TaskStatus.pending, 10⟩], []⟩
    updateTask db 10 30 1 ⟨none, none, none⟩ =
      (UpdateTaskResult.ok ⟨30, "Milk", some "2L", TaskStatus.pending, 10⟩,
        db) :=
  empty_update_identity
    ⟨[⟨1, "a@x.com", "h1"⟩], [⟨10, "Groceries", 1⟩],
      [⟨30, "Milk", some "2L", TaskStatus.pending, 10⟩], []⟩
    10 1 30 ⟨30, "Milk", some "2L", TaskStatus.pending, 10⟩
    (by decide) (by decide) (by decide) (by simp)

/-! ## Frame and case lemmas for the reachability argument -/

lemma register_frame (db : DB) (e p : String) (n : Nat) :
    (register db e p n).2.shares = db.shares ∧
      (register db e p n).2.taskLists = db.taskLists := by
  simp only [register]
  repeat' split
  all_goals exact ⟨rfl, rfl⟩

lemma createTask_frame (db : DB) (L U : Nat) (b : CreateTaskBody) (n : Nat) :
    (createTask db L U b n).2.shares = db.shares ∧
      (createTask db L U b n).2.taskLists = db.taskLists := by
  simp only [createTask]
  repeat' split
  all_goals exact ⟨rfl, rfl⟩

lemma updateTask_frame (db : DB) (L tid U : Nat) (b : UpdateTaskBody) :
    (updateTask db L tid U b).2.shares = db.shares ∧
      (updateTask db L tid U b).2.taskLists = db.taskLists := by
  simp only [updateTask]
  repeat' split
  all_goals exact ⟨rfl, rfl⟩

lemma updateTaskStatus_frame (db : DB) (L tid U : Nat) (s : TaskStatus) :
    (updateTaskStatus db L tid U s).2.shares = db.shares ∧
      (updateTaskStatus db L tid U s).2.taskLists = db.taskLists := by
  simp only [updateTaskStatus]
  repeat' split
  all_goals exact ⟨rfl, rfl⟩

lemma deleteTask_frame (db : DB) (L tid U : Nat) :
    (deleteTask db L tid U).2.shares = db.shares ∧
      (deleteTask db L tid U).2.taskLists = db.taskLists := by
  simp only [deleteTask]
  repeat' split
  all_goals exact ⟨rfl, rfl⟩

lemma createTaskList_cases (db : DB) (U : Nat) (ti : String) (n : Nat) :
    (createTaskList db U ti n).2 = db ∨
      (createTaskList db U ti n).2 =
        { db with taskLists := db.taskLists ++ [⟨n, jsTrim ti, U⟩] } := by
  simp only [createTaskList]
  split
  · right; rfl
  · left; rfl

lemma updateTaskList_cases (db : DB) (id U : Nat) (ti : String) :
    (updateTaskList db id U ti).2 = db ∨
      ∃ tl, findTaskList db id = some tl ∧
        (updateTaskList db id U ti).2 =
          { db with taskLists := db.taskLists.map (fun l =>
              if l.id == id then { tl with title := jsTrim ti } else l) } := by
  simp only [updateTaskList]
  split
  · cases hfl : findTaskList db id with
    | none => left; rfl
    | some tl =>
      by_cases ho : tl.ownerId = U
      · right
        exact ⟨tl, rfl, by simp [ho]⟩
      · left; simp [ho]
  · left; rfl

lemma deleteTaskList_cases (db : DB) (id U : Nat) :
    (deleteTaskList db id U).2 = db ∨
      (deleteTaskList db id U).2 =
        { db with
          taskLists := db.taskLists.filter (fun l => !(l.id == id))
          tasks := db.tasks.filter (fun t => !(t.taskListId == id))
          shares := db.shares.filter (fun s => !(s.taskListId == id)) } := by
  simp only [deleteTaskList]
  cases hfl : findTaskList db id with
  | none => left; rfl
  | some tl =>
    by_cases ho : tl.ownerId = U
    · right; simp [ho]
    · left; simp [ho]

lemma grantShare_cases (db : DB) (L U : Nat) (e : String) (p : Permission)
    (n : Nat) :
    (grantShare db L U e p n).2 = db ∨
      ∃ tl target, findTaskList db L = some tl ∧ tl.ownerId = U ∧
        findUserByEmail db e = some target ∧ target.id ≠ U ∧
        (grantShare db L U e p n).2 =
          { db with shares := db.shares ++ [⟨n, L, target.id, p⟩] } := by
  simp only [grantShare]
  cases hfl : findTaskList db L with
  | none => left; rfl
  | some tl =>
    by_cases ho : tl.ownerId = U
    · cases htg : findUserByEmail db e with
      | none => left; simp [ho]
      | some target =>
        by_cases hself : target.id = U
        · left; simp [ho, hself]
        · cases hex : findShareFor db L target.id with
          | some s => left; simp [ho, hself, hex]
          | none =>
            right
            exact ⟨tl, target, rfl, ho, rfl, hself, by simp [ho, hself, hex]⟩
    · left; simp [ho]

lemma updateSharePermission_cases (db : DB) (L sid U : Nat) (p : Permission) :
    (updateSharePermission db L sid U p).2 = db ∨
      ∃ s0, findShareById db sid = some s0 ∧
        (updateSharePermission db L sid U p).2 =
          { db with shares := db.shares.map (fun u =>
              if u.id == sid then { s0 with permission := p } else u) } := by
  simp only [updateSharePermission]
  cases hfl : findTaskList db L with
  | none => left; rfl
  | some tl =>
    by_cases ho : tl.ownerId = U
    · cases hsh : findShareById db sid with
      | none => left; simp [ho]
      | some s0 =>
        by_cases hmm : s0.taskListId = L
        · right
          exact ⟨s0, rfl, by simp [ho, hmm]⟩
        · left; simp [ho, hmm]
    · left; simp [ho]

lemma revokeShare_cases (db : DB) (L sid U : Nat) :
    (revokeShare db L sid U).2 = db ∨
      (revokeShare db L sid U).2 =
        { db with shares := db.shares.filter (fun u => !(u.id == sid)) } := by
  simp only [revokeShare]
  cases hfl : findTaskList db L with
  | none => left; rfl
  | some tl =>
    by_cases ho : tl.ownerId = U
    · cases hsh : findShareById db sid with
      | none => left; simp [ho]
      | some s0 =>
        by_cases hmm : s0.taskListId = L
        · right; simp [ho, hmm]
        · left; simp [ho, hmm]
    · left; simp [ho]

/-! ## Invariant preservation -/

lemma eq_of_mem_nodup_ids {l : List TaskList}
    (hnd : l.Pairwise (fun a b => a.id ≠ b.id)) {a b : TaskList}
    (ha : a ∈ l) (hb : b ∈ l) (h : a.id = b.id) : a = b := by
  induction l with
  | nil => cases ha
  | cons c t ih =>
    rcases List.pairwise_cons.mp hnd with ⟨hc, ht⟩
    rcases List.mem_cons.mp ha with rfl | ha' <;>
      rcases List.mem_cons.mp hb with h' | hb'
    · rw [h']
    · exact absurd h (hc b hb')
    · subst h'
      exact absurd h.symm (hc a ha')
    · exact ih ht ha' hb'

lemma inv_of_frame {db db' : DB} (hs : db'.shares = db.shares)
    (hl : db'.taskLists = db.taskLists) (h : Inv db) : Inv db' := by
  obtain ⟨h1, h2, h3⟩ := h
  refine ⟨?_, ?_, ?_⟩
  · unfold ListIdsNodup at *
    rw [hl]; exact h1
  · unfold SharesFK at *
    rw [hs, hl]; exact h2
  · unfold NoSelfShare at *
    rw [hs, hl]; exact h3

lemma inv_append_list {db : DB} {n U : Nat} {ti : String}
    (hfresh : ∀ l ∈ db.taskLists, l.id ≠ n) (h : Inv db) :
    Inv { db with taskLists := db.taskLists ++ [⟨n, ti, U⟩] } := by
  obtain ⟨h1, h2, h3⟩ := h
  refine ⟨?_, ?_, ?_⟩
  · unfold ListIdsNodup at *
    rw [List.pairwise_append]
    refine ⟨h1, List.pairwise_singleton _ _, ?_⟩
    intro a ha b hb
    rw [List.mem_singleton] at hb
    subst hb
    exact hfresh a ha
  · unfold SharesFK at *
    intro s hs
    obtain ⟨l, hl, he⟩ := h2 s hs
    exact ⟨l, List.mem_append_left _ hl, he⟩
  · unfold NoSelfShare at *
    intro s hs l hl he
    rcases List.mem_append.mp hl with hl' | hl'
    · exact h3 s hs l hl' he
    · rw [List.mem_singleton] at hl'
      subst hl'
      obtain ⟨l', hl', he'⟩ := h2 s hs
      exact absurd (he'.trans he.symm) (hfresh l' hl')

lemma inv_append_share {db : DB} {n L tid : Nat} {p : Permission}
    {tl : TaskList} (hfl : findTaskList db L = some tl)
    (howner : tl.ownerId ≠ tid) (h : Inv db) :
    Inv { db with shares := db.shares ++ [⟨n, L, tid, p⟩] } := by
  obtain ⟨h1, h2, h3⟩ := h
  have htl_mem := findTaskList_mem hfl
  have htl_id := findTaskList_id hfl
  refine ⟨h1, ?_, ?_⟩
  · intro s hs
    rcases List.mem_append.mp hs with hs' | hs'
    · exact h2 s hs'
    · rw [List.mem_singleton] at hs'
      subst hs'
      exact ⟨tl, htl_mem, htl_id⟩
  · intro s hs l hl he
    rcases List.mem_append.mp hs with hs' | hs'
    · exact h3 s hs' l hl he
    · rw [List.mem_singleton] at hs'
      subst hs'
      have hltl : l = tl :=
        eq_of_mem_nodup_ids h1 hl htl_mem (he.trans htl_id.symm)
      rw [hltl]
      exact howner

lemma inv_delete_list {db : DB} {id : Nat} (h : Inv db) :
    Inv { db with
      taskLists := db.taskLists.filter (fun l => !(l.id == id))
      tasks := db.tasks.filter (fun t => !(t.taskListId == id))
      shares := db.shares.filter (fun s => !(s.taskListId == id)) } := by
  obtain ⟨h1, h2, h3⟩ := h
  refine ⟨?_, ?_, ?_⟩
  · exact h1.filter _
  · intro s hs
    rw [List.mem_filter] at hs
    obtain ⟨hs', hcond⟩ := hs
    obtain ⟨l, hl, he⟩ := h2 s hs'
    refine ⟨l, ?_, he⟩
    rw [List.mem_filter]
    exact ⟨hl, by simpa [he] using hcond⟩
  · intro s hs l hl he
    rw [List.mem_filter] at hs hl
    exact h3 s hs.1 l hl.1 he

lemma inv_update_list {db : DB} {id : Nat} {tl : TaskList} {ti : String}
    (hfl : findTaskList db id = some tl) (h : Inv db) :
    Inv { db with taskLists := db.taskLists.map (fun l =>
        if l.id == id then { tl with title := ti } else l) } := by
  obtain ⟨h1, h2, h3⟩ := h
  have htl_id := findTaskList_id hfl
  have htl_mem := findTaskList_mem hfl
  have hid : ∀ l : TaskList,
      ((if l.id == id then { tl with title := ti } else l) : TaskList).id =
        l.id := by
    intro l
    by_cases hc : (l.id == id) = true
    · rw [if_pos hc]
      have hlid : l.id = id := by simpa using hc
      rw [hlid]
      exact htl_id
    · rw [if_neg hc]
  refine ⟨?_, ?_, ?_⟩
  · unfold ListIdsNodup at *
    rw [List.pairwise_map]
    exact List.Pairwise.imp (fun hab => by rw [hid, hid]; exact hab) h1
  · unfold SharesFK at *
    intro s hs
    obtain ⟨l, hl, he⟩ := h2 s hs
    refine ⟨_, List.mem_map_of_mem _ hl, ?_⟩
    rw [hid]
    exact he
  · unfold NoSelfShare at *
    intro s hs l' hl' he
    rw [List.mem_map] at hl'
    obtain ⟨l, hl, rfl⟩ := hl'
    by_cases hc : (l.id == id) = true
    · rw [if_pos hc] at he ⊢
      exact h3 s hs tl htl_mem he
    · rw [if_neg hc] at he ⊢
      exact h3 s hs l hl he

lemma inv_update_share {db : DB} {sid : Nat} {s0 : Share} {p : Permission}
    (hsh : findShareById db sid = some s0) (h : Inv db) :
    Inv { db with shares := db.shares.map (fun u =>
        if u.id == sid then { s0 with permission := p } else u) } := by
  obtain ⟨h1, h2, h3⟩ := h
  have hs0 := findShareById_mem hsh
  refine ⟨h1, ?_, ?_⟩
  · intro s hs
    rw [List.mem_map] at hs
    obtain ⟨u, hu, rfl⟩ := hs
    by_cases hc : (u.id == sid) = true
    · rw [if_pos hc]
      exact h2 s0 hs0
    · rw [if_neg hc]
      exact h2 u hu
  · intro s hs l hl he
    rw [List.mem_map] at hs
    obtain ⟨u, hu, rfl⟩ := hs
    by_cases hc : (u.id == sid) = true
    · rw [if_pos hc] at he ⊢
      exact h3 s0 hs0 l hl he
    · rw [if_neg hc] at he ⊢
      exact h3 u hu l hl he

lemma inv_filter_shares {db : DB} {q : Share → Bool} (h : Inv db) :
    Inv { db with shares := db.shares.filter q } := by
  obtain ⟨h1, h2, h3⟩ := h
  refine ⟨h1, ?_, ?_⟩
  · intro s hs
    rw [List.mem_filter] at hs
    exact h2 s hs.1
  · intro s hs l hl he
    rw [List.mem_filter] at hs
    exact h3 s hs.1 l hl he

lemma reachable_inv {db : DB} (h : Reachable db) : Inv db := by
  induction h with
  | init =>
    refine ⟨List.Pairwise.nil, ?_, ?_⟩
    · intro s hs; cases hs
    · intro s hs; cases hs
  | registerStep db e p n hr ih =>
    obtain ⟨hs, hl⟩ := register_frame db e p n
    exact inv_of_frame hs hl ih
  | createListStep db U ti n hfresh hr ih =>
    rcases createTaskList_cases db U ti n with hcase | hcase
    · rw [hcase]; exact ih
    · rw [hcase]; exact inv_append_list hfresh ih
  | updateListStep db id U ti hr ih =>
    rcases updateTaskList_cases db id U ti with hcase | ⟨tl, hfl, hcase⟩
    · rw [hcase]; exact ih
    · rw [hcase]; exact inv_update_list hfl ih
  | deleteListStep db id U hr ih =>
    rcases deleteTaskList_cases db id U with hcase | hcase
    · rw [hcase]; exact ih
    · rw [hcase]; exact inv_delete_list ih
  | createTaskStep db L U b n hr ih =>
    obtain ⟨hs, hl⟩ := createTask_frame db L U b n
    exact inv_of_frame hs hl ih
  | updateTaskStep db L tid U b hr ih =>
    obtain ⟨hs, hl⟩ := updateTask_frame db L tid U b
    exact inv_of_frame hs hl ih
  | updateStatusStep db L tid U s hr ih =>
    obtain ⟨hs, hl⟩ := updateTaskStatus_frame db L tid U s
    exact inv_of_frame hs hl ih
  | deleteTaskStep db L tid U hr ih =>
    obtain ⟨hs, hl⟩ := deleteTask_frame db L tid U
    exact inv_of_frame hs hl ih
  | grantStep db L U e p n hr ih =>
    rcases grantShare_cases db L U e p n with
      hcase | ⟨tl, target, hfl, ho, htg, hself, hcase⟩
    · rw [hcase]; exact ih
    · rw [hcase]
      refine inv_append_share hfl ?_ ih
      rw [ho]
      exact fun hc => hself hc.symm
  | updateShareStep db L sid U p hr ih =>
    rcases updateSharePermission_cases db L sid U p with
      hcase | ⟨s0, hsh, hcase⟩
    · rw [hcase]; exact ih
    · rw [hcase]; exact inv_update_share hsh ih
  | revokeStep db L sid U hr ih =>
    rcases revokeShare_cases db L sid U with hcase | hcase
    · rw [hcase]; exact ih
    · rw [hcase]; exact inv_filter_shares ih

/-- C8.  First part: a grant whose resolved targetee is the list's owner
is rejected on the self-share check — the branch the spec's taxonomy calls
InvalidOperation, serialized as 400
`'You cannot share a task list with yourself'` — and no share is created.
Second part: every store reachable from the empty store through the route
handlers satisfies the invariant that no list's owner holds a share on
their own list. -/
theorem self_share_impossible :
    (∀ (db : DB) (L U newId : Nat) (email : String) (perm : Permission)
        (tl : TaskList) (target : User),
      findTaskList db L = some tl → tl.ownerId = U →
      findUserByEmail db email = some target → target.id = tl.ownerId →
      grantShare db L U email perm newId = (GrantResult.selfShare, db)) ∧
      (∀ db : DB, Reachable db → NoSelfShare db) := by
  constructor
  · intro db L U newId email perm tl target hfl ho htg heq
    have hself : target.id = U := heq.trans ho
    unfold grantShare
    rw [hfl]
    simp [ho, htg, hself]
  · intro db h
    exact (reachable_inv h).2.2

/-- Witness for C8: the owner's attempt to share their list with
themselves is rejected with the store unchanged, and a concrete reachable
store — register a user, create a list — has no self-share. -/
theorem self_share_impossible_witness :
    (grantShare ⟨[⟨1, "a@x.com", "pw"⟩], [⟨10, "Groceries", 1⟩], [], []⟩
        10 1 "a@x.com" Permission.view 20 =
      (GrantResult.selfShare,
        ⟨[⟨1, "a@x.com", "pw"⟩], [⟨10, "Groceries", 1⟩], [], []⟩)) ∧
      NoSelfShare (createTaskList
        (register ⟨[], [], [], []⟩ "a@x.com" "pw" 1).2 1 "Groceries" 10).2 :=
  ⟨self_share_impossible.1
      ⟨[⟨1, "a@x.com", "pw"⟩], [⟨10, "Groceries", 1⟩], [], []⟩
      10 1 20 "a@x.com" Permission.view ⟨10, "Groceries", 1⟩
      ⟨1, "a@x.com", "pw"⟩ (by decide) (by decide) (by decide) (by decide),
    self_share_impossible.2 _
      (Reachable.createListStep _ 1 "Groceries" 10 (by decide)
        (Reachable.registerStep _ "a@x.com" "pw" 1 Reachable.init))⟩

end TMS
